import Mathlib

/-!
Declaration scanner and build orchestrator of `typescriptify/transpile_directory.go`.

A shallow embedding of the Go file `typescriptify/transpile_directory.go`.

* Go strings are Lean `String`s; `len(s)` is the UTF-8 byte length.
* The package-level variable `structs`, the file system, standard output and
  standard error are the fields of an explicit `World` that every stateful
  function takes and returns.
* The things the Go code obtains from its surroundings (the clock, the
  directory listing, the parser, failures of system calls, the subprocess) are
  the fields of an `Env`.
* A Go call ends in one of three ways: it returns, it calls `os.Exit`, or it
  panics (deferred calls run in the last case, and in the first, not in the
  second). This is the type `Exit`.
* A syntax tree is a rose tree whose nodes carry what the type switch of
  `AVisitor.Visit` can tell apart: an identifier with its name, a struct type,
  or a node of another kind.
-/

namespace typescriptify

/-! ## Strings and the library functions used by the source -/

/-- Go `len(s)` for a string: the number of bytes of its UTF-8 encoding. -/
def len (s : String) : Nat := s.utf8ByteSize

/-- Go `strings.HasSuffix(s, suffix)`. -/
def strings.HasSuffix (s suffix : String) : Bool :=
  suffix.data.isSuffixOf s.data

/-- Go `unicode.IsSpace`: the Latin-1 space characters and the code points with
the Unicode White_Space property. -/
def unicode.IsSpace (r : Char) : Bool :=
  let c := r.toNat
  if c ≤ 0xFF then
    c == 0x09 || c == 0x0A || c == 0x0B || c == 0x0C || c == 0x0D || c == 0x20
      || c == 0x85 || c == 0xA0
  else
    c == 0x1680 || (0x2000 ≤ c && c ≤ 0x200A) || c == 0x2028 || c == 0x2029
      || c == 0x202F || c == 0x205F || c == 0x3000

/-- Go `strings.TrimSpace(s)`: `s` without its leading and trailing white space. -/
def strings.TrimSpace (s : String) : String :=
  ⟨((s.data.dropWhile unicode.IsSpace).reverse.dropWhile unicode.IsSpace).reverse⟩

/-- Go `fmt.Sprintf("%d", n)` for a signed integer. -/
def fmt.Sprintd : Int → String
  | Int.ofNat n => Nat.repr n
  | Int.negSucc n => "-" ++ Nat.repr (n + 1)

/-- The pieces of a text between the occurrences of a separator. -/
def splitOn (sep : Char) : List Char → List (List Char)
  | [] => [[]]
  | c :: cs =>
    if c = sep then [] :: splitOn sep cs
    else
      match splitOn sep cs with
      | [] => [[c]]
      | e :: es => (c :: e) :: es

/-- The elements of a path: the pieces between its `/` separators. -/
def filepath.elements (path : List Char) : List (List Char) :=
  splitOn '/' path

/-- One step of `filepath.Clean`: the elements kept so far (innermost first)
after reading one more element. Empty elements and `.` are dropped; `..`
removes the element before it, unless there is none (then it is dropped in a
rooted path and kept in a relative one) or that element is itself a kept `..`. -/
def filepath.cleanStep (rooted : Bool) (kept : List (List Char)) (e : List Char) :
    List (List Char) :=
  if e = [] ∨ e = ['.'] then kept
  else if e = ['.', '.'] then
    match kept with
    | [] => if rooted then [] else [e]
    | top :: below => if top = ['.', '.'] then e :: top :: below else below
  else e :: kept

/-- The elements of a list joined with `/` in front of each of them. -/
def filepath.slashed : List (List Char) → List Char
  | [] => []
  | e :: es => '/' :: e ++ filepath.slashed es

/-- Whether a path starts with the separator. -/
def filepath.isRooted (path : List Char) : Bool :=
  path.head? == some '/'

/-- The cleaned path made of the kept elements (outermost first): `/` or `.`
when there is none, the elements joined with `/` otherwise, after a leading
`/` when the path is rooted. -/
def filepath.assemble (rooted : Bool) (kept : List (List Char)) : List Char :=
  if rooted then
    if kept = [] then ['/'] else filepath.slashed kept
  else
    match kept with
    | [] => ['.']
    | e :: es => e ++ filepath.slashed es

/-- Go `filepath.Clean(path)` with `/` as the separator: the shortest path
equivalent to `path` by purely lexical processing. -/
def filepath.Clean (path : String) : String :=
  let rooted := filepath.isRooted path.data
  ⟨filepath.assemble rooted
    ((filepath.elements path.data).foldl (filepath.cleanStep rooted) []).reverse⟩

/-- Go `filepath.Join(a, b)`: the elements from the first non-empty one on,
joined with `/` and cleaned; the empty string when both are empty. -/
def filepath.Join (a b : String) : String :=
  if a ≠ "" then filepath.Clean (a ++ "/" ++ b)
  else if b ≠ "" then filepath.Clean b
  else ""

/-! ## The syntax tree and the visitor (lines 155-189) -/

/-- What `AVisitor.Visit` can tell about a non-nil `ast.Node`: it is an
`*ast.Ident` with its `Name`, an `*ast.StructType`, or of another kind (named
here for readability only). -/
inductive Node where
  | ident (name : String)
  | structType
  | other (kind : String)
  deriving DecidableEq

/-- A syntax tree: a node and its children in the order `ast.Walk` walks them. -/
inductive Ast where
  | mk (node : Node) (children : List Ast)

/-- The Go struct `AVisitor`. -/
structure AVisitor where
  structNameCandidate : String := ""
  structs : List String := []
  deriving DecidableEq

/-- Go `(v *AVisitor) Visit(node)`; `none` is the nil node. The method returns
`v` itself, so the walk goes on with the updated visitor. -/
def AVisitor.Visit (v : AVisitor) (node : Option Node) : AVisitor :=
  match node with
  | none => v
  | some (Node.ident name) => { v with structNameCandidate := name }
  | some Node.structType =>
    if len v.structNameCandidate > 0 then
      { structNameCandidate := "", structs := v.structs ++ [v.structNameCandidate] }
    else v
  | some (Node.other _) => { v with structNameCandidate := "" }

mutual
/-- Go `ast.Walk(v, node)` for a visitor whose `Visit` never returns nil:
visit the node, walk its children in order, then visit nil. -/
def ast.Walk (v : AVisitor) : Ast → AVisitor
  | Ast.mk n children => (ast.WalkList (v.Visit (some n)) children).Visit none
/-- The walk of a list of sibling nodes, one after the other. -/
def ast.WalkList (v : AVisitor) : List Ast → AVisitor
  | [] => v
  | t :: ts => ast.WalkList (ast.Walk v t) ts
end

mutual
/-- The arguments of the successive `Visit` calls that `ast.Walk` makes on a tree. -/
def ast.visits : Ast → List (Option Node)
  | Ast.mk n children => some n :: (ast.visitsList children ++ [none])
/-- The `Visit` calls made on a list of sibling nodes. -/
def ast.visitsList : List Ast → List (Option Node)
  | [] => []
  | t :: ts => ast.visits t ++ ast.visitsList ts
end

/-- Go `GetGolangFileStructs(filename)`; `parse` stands for `parser.ParseFile`
on the current file system (an error text, or the syntax tree of the file). -/
def GetGolangFileStructs (parse : String → Except String Ast) (filename : String) :
    Except String (List String) :=
  match parse filename with
  | Except.error err => Except.error err
  | Except.ok f => Except.ok (ast.Walk {} f).structs

/-! ### Syntax trees of files that declare struct types -/

/-- An `*ast.Ident` leaf. -/
def ast.Ident (name : String) : Ast := Ast.mk (Node.ident name) []

/-- A top-level struct type declaration
`Name[typeParams] struct { fields... }`: the declared name, the subtrees of the
`*ast.Field` nodes of its type parameter list when it has one, the number of
parentheses written around the struct type, and the subtrees of the
`*ast.Field` nodes of its body. -/
structure StructDecl where
  name : String
  typeParams : Option (List Ast) := none
  parens : Nat := 0
  fields : List Ast

/-- The `*ast.FieldList` of a struct body or of a type parameter list. -/
def ast.FieldList (fields : List Ast) : Ast := Ast.mk (Node.other "FieldList") fields

/-- The `*ast.StructType` of a struct with the given fields: its only child is
the field list. -/
def ast.StructType (fields : List Ast) : Ast :=
  Ast.mk Node.structType [ast.FieldList fields]

/-- The `*ast.ParenExpr` nodes that the parser keeps around a type written in
`n` pairs of parentheses. -/
def ast.parenthesised : Nat → Ast → Ast
  | 0, x => x
  | n + 1, x => Ast.mk (Node.other "ParenExpr") [ast.parenthesised n x]

/-- The children of a `*ast.TypeSpec` that `ast.Walk` walks between its `Name`
and its `Type`: the `TypeParams` field list, when the declaration has one. -/
def ast.typeParamsOf (d : StructDecl) : List Ast :=
  match d.typeParams with
  | none => []
  | some params => [ast.FieldList params]

/-- The `*ast.TypeSpec` of a struct declaration: `ast.Walk` walks its `Name`,
then its `TypeParams` if it has any, then its `Type`, the struct type inside
its parentheses. -/
def ast.TypeSpec (d : StructDecl) : Ast :=
  Ast.mk (Node.other "TypeSpec")
    (ast.Ident d.name ::
      (ast.typeParamsOf d ++ [ast.parenthesised d.parens (ast.StructType d.fields)]))

/-- An `*ast.GenDecl` with the keyword `type`: one spec, or several in parentheses. -/
def ast.GenDecl (specs : List StructDecl) : Ast :=
  Ast.mk (Node.other "GenDecl") (specs.map ast.TypeSpec)

/-- The `*ast.File` of a source file that consists of a package clause and
top-level struct type declarations only: `ast.Walk` walks the package name and
then the declarations. -/
def ast.File (pkg : String) (decls : List (List StructDecl)) : Ast :=
  Ast.mk (Node.other "File") (ast.Ident pkg :: decls.map ast.GenDecl)

/-- An `*ast.Field` with one name and a type. -/
def ast.Field (name : String) (type : Ast) : Ast :=
  Ast.mk (Node.other "Field") [ast.Ident name, type]

/-! ### The emitted list, said in words -/

/-- Whether the next non-nil node of a sequence of visits is a struct type. -/
def nextIsStruct : List (Option Node) → Bool
  | [] => false
  | none :: rest => nextIsStruct rest
  | some Node.structType :: _ => true
  | some _ :: _ => false

/-- The names, in visit order, of the identifier nodes with a non-empty name
whose next non-nil visited node is a struct-type node. -/
def identsBeforeStruct : List (Option Node) → List String
  | [] => []
  | some (Node.ident name) :: rest =>
    if name ≠ "" ∧ nextIsStruct rest = true then name :: identsBeforeStruct rest
    else identsBeforeStruct rest
  | _ :: rest => identsBeforeStruct rest

/-- The number of struct-type nodes among the visited nodes. -/
def countStructs (vs : List (Option Node)) : Nat :=
  vs.count (some Node.structType)

/-! ## The generated program (lines 28-61) -/

/-- The Go struct `Params`. `InitParams` is a Go map from names to values; it
is kept as the list of its entries in the order in which the template engine
ranges over a map, sorted by key, with the values as they print. -/
structure Params where
  ModelsPackage : String := ""
  TargetFile : String := ""
  Structs : List String := []
  InitParams : List (String × String) := []
  CustomImports : List String := []
  Interface : Bool := false
  Verbose : Bool := false

/-- A piece of the body of a `range` block of `TEMPLATE`: literal text, the
element `{{ . }}`, or the variables `{{ $key }}` and `{{ $value }}`. -/
inductive RangeItem where
  | text (s : String)
  | dot
  | key
  | value

/-- A piece of `TEMPLATE` outside the `range` blocks: literal text, one of the
fields `{{ .ModelsPackage }}`, `{{ .Interface }}`, `{{ .TargetFile }}`, or one
of the three `range` blocks with its body. -/
inductive Item where
  | text (s : String)
  | ModelsPackage
  | Interface
  | TargetFile
  | rangeInitParams (body : List RangeItem)
  | rangeStructs (body : List RangeItem)
  | rangeCustomImports (body : List RangeItem)

/-- The Go constant `TEMPLATE`, as `template.Parse` cuts it into pieces. The
template has no trim markers, so the text between the actions is kept as is. -/
def TEMPLATE : List Item :=
  [ Item.text "package main\n\nimport (\n\t\"fmt\"\n\n\tm \"",
    Item.ModelsPackage,
    Item.text ("\"\n\t\"github.com/arpitbbhayani/transpiler/typescriptify\"\n)\n\n"
      ++ "func main() \x7b\n\tt := typescriptify.New()\n\tt.CreateInterface = "),
    Item.Interface,
    Item.text "\n",
    Item.rangeInitParams
      [RangeItem.text "\tt.", RangeItem.key, RangeItem.text "=", RangeItem.value,
       RangeItem.text "\n"],
    Item.text "\n",
    Item.rangeStructs
      [RangeItem.text "\tt.Add(", RangeItem.dot, RangeItem.text "\x7b\x7d)\n"],
    Item.text "\n",
    Item.rangeCustomImports
      [RangeItem.text "\tt.AddImport(\"", RangeItem.dot, RangeItem.text "\")\n"],
    Item.text "\n\terr := t.ConvertToFile(\"",
    Item.TargetFile,
    Item.text ("\")\n\tif err != nil \x7b\n\t\tpanic(err.Error())\n\t\x7d\n"
      ++ "\tfmt.Println(\"OK\")\n\x7d") ]

/-- The texts of a list, one after the other. -/
def concat : List String → String
  | [] => ""
  | s :: rest => s ++ concat rest

/-- The text a piece of a `range` body prints for one element. -/
def RangeItem.exec (dot key value : String) : RangeItem → String
  | RangeItem.text s => s
  | RangeItem.dot => dot
  | RangeItem.key => key
  | RangeItem.value => value

/-- The text a `range` body prints for one element. -/
def execBody (body : List RangeItem) (dot key value : String) : String :=
  concat (body.map (RangeItem.exec dot key value))

/-- The text a piece of the template prints (`text/template` prints strings as
they are, without escaping, and a boolean as `true` or `false`). -/
def Item.exec (p : Params) : Item → String
  | Item.text s => s
  | Item.ModelsPackage => p.ModelsPackage
  | Item.Interface => if p.Interface then "true" else "false"
  | Item.TargetFile => p.TargetFile
  | Item.rangeInitParams body =>
    concat (p.InitParams.map (fun kv => execBody body kv.2 kv.1 kv.2))
  | Item.rangeStructs body => concat (p.Structs.map (fun s => execBody body s "" ""))
  | Item.rangeCustomImports body =>
    concat (p.CustomImports.map (fun s => execBody body s "" ""))

/-- Go `t.Execute(fp, p)` for a parsed template `t`: the text written. -/
def Execute (t : List Item) (p : Params) : String :=
  concat (t.map (Item.exec p))

/-- The loop of lines 129-135: the names registered in the generated program. -/
def structsArr : List String → List String
  | [] => []
  | str :: rest =>
    let str := strings.TrimSpace str
    if len str > 0 then ("m." ++ str) :: structsArr rest else structsArr rest

/-- What a path of the file system holds. -/
inductive FileKind where
  | dir
  | file (content : String)
  deriving DecidableEq

/-- The state the Go code reads and writes: the package-level variable
`structs`, the file system (the paths that exist, each with what it holds),
and what has been written to standard output and standard error. -/
structure World where
  structs : List String := []
  fs : List (String × FileKind) := []
  stdout : List String := []
  stderr : List String := []

/-- Go `func init()`: the accumulator starts empty when the process starts. -/
def init (w : World) : World := { w with structs := [] }

/-- Whether a path exists. -/
def World.pathExists (w : World) (path : String) : Bool :=
  w.fs.any (fun e => e.1 == path)

/-- Go `fmt.Println(s)`. -/
def World.Println (w : World) (s : String) : World :=
  { w with stdout := w.stdout ++ [s ++ "\n"] }

/-- How a Go call ends: it returns, the process exits through `os.Exit`, or it
panics with a message. -/
inductive Exit where
  | returned
  | osExit (code : Nat)
  | panicked (msg : String)
  deriving DecidableEq

/-- One call that `filepath.Walk` makes to its walk function: the path of the
entry and the error met when reading it, if any. -/
structure WalkEntry where
  path : String
  err : Option String := none

/-- What the Go code obtains from its surroundings during one invocation. -/
structure Env where
  /-- The clock reading `time.Now().Unix()`, in whole seconds. -/
  now : Int
  /-- The calls `filepath.Walk` makes under a root, in walk order, as long as
  the walk function answers nil. -/
  walk : String → List WalkEntry
  /-- The function `parser.ParseFile` on the files of the source tree. -/
  parse : String → Except String Ast
  /-- The error of `os.MkdirAll`, if it fails. -/
  mkdirAllErr : Option String := none
  /-- The error of `os.Create`, if it fails. -/
  createErr : Option String := none
  /-- The error of `t.Execute`, if it fails. -/
  executeErr : Option String := none
  /-- The subprocess `cmd.CombinedOutput()`: from the arguments, the working
  directory and the file system, the file system it leaves, the captured
  output and the error, if it fails. -/
  CombinedOutput : List String → String → List (String × FileKind) →
    List (String × FileKind) × String × Option String

/-- The proper ancestors of a cleaned path, outermost first. -/
def os.parents (path : String) : List String :=
  (List.range path.data.length).filterMap (fun i =>
    if 0 < i ∧ path.data.get? i = some '/' then some ⟨path.data.take i⟩ else none)

/-- Go `os.MkdirAll(path, perm)` when it succeeds: the directory and its
missing ancestors exist afterwards. -/
def os.MkdirAll (fs : List (String × FileKind)) (path : String) : List (String × FileKind) :=
  (os.parents path ++ [path]).foldl
    (fun fs p => if fs.any (fun e => e.1 == p) then fs else fs ++ [(p, FileKind.dir)]) fs

/-- Go `os.Create(path)` when it succeeds: the file exists and is empty. -/
def os.Create (fs : List (String × FileKind)) (path : String) : List (String × FileKind) :=
  fs.filter (fun e => e.1 ≠ path) ++ [(path, FileKind.file "")]

/-- The writes to an open file: the file holds the text. -/
def os.Write (fs : List (String × FileKind)) (path text : String) : List (String × FileKind) :=
  fs.map (fun e => if e.1 = path then (path, FileKind.file text) else e)

/-- Go `os.Remove(path)` when it succeeds: the path is gone. -/
def os.Remove (fs : List (String × FileKind)) (path : String) : List (String × FileKind) :=
  fs.filter (fun e => e.1 ≠ path)

/-- Go `os.RemoveAll(path)` when it succeeds: the path and all it contains are gone. -/
def os.RemoveAll (fs : List (String × FileKind)) (path : String) : List (String × FileKind) :=
  fs.filter (fun e => e.1 ≠ path ∧ ¬ (path ++ "/").data.isPrefixOf e.1.data = true)

/-! ## The scanner (lines 63-90) -/

/-- What a walk function does: it returns nil, returns an error, or panics. -/
inductive WalkFnResult where
  | nil
  | err (e : String)
  | panic (msg : String)
  deriving DecidableEq

/-- Go `visit(path, fi, err)`; the `fs.FileInfo` argument is not used. -/
def visit (env : Env) (w : World) (path : String) (err : Option String) :
    World × WalkFnResult :=
  match err with
  | some e => (w.Println e, WalkFnResult.err e)
  | none =>
    if !strings.HasSuffix path ".go" then (w, WalkFnResult.nil)
    else
      match GetGolangFileStructs env.parse path with
      | Except.error e =>
        (w, WalkFnResult.panic ("Error loading/parsing golang file " ++ path ++ ": " ++ e))
      | Except.ok fileStructs =>
        ({ w with structs := w.structs ++ fileStructs }, WalkFnResult.nil)

/-- Go `filepath.Walk(root, walkFn)` over the entries of the tree: the walk
function is called on each entry in turn and the walk stops at the first call
that does not return nil. -/
def filepath.Walk (walkFn : World → String → Option String → World × WalkFnResult) :
    List WalkEntry → World → World × WalkFnResult
  | [], w => (w, WalkFnResult.nil)
  | e :: es, w =>
    match walkFn w e.path e.err with
    | (w1, WalkFnResult.nil) => filepath.Walk walkFn es w1
    | (w1, r) => (w1, r)

/-- Go `popuplateStructs(dirpath)`. -/
def popuplateStructs (env : Env) (w : World) (dirpath : String) : World × Exit :=
  match filepath.Walk (visit env) (env.walk dirpath) w with
  | (w1, WalkFnResult.nil) => (w1, Exit.returned)
  | (w1, WalkFnResult.err e) => (w1, Exit.panicked e)
  | (w1, WalkFnResult.panic msg) => (w1, Exit.panicked msg)

/-- The discovery list of one file: what `GetGolangFileStructs` returns for
it, and nothing when the file does not parse. -/
def fileStructs (env : Env) (path : String) : List String :=
  match GetGolangFileStructs env.parse path with
  | Except.ok names => names
  | Except.error _ => []

/-- The concatenation, in walk order, of the discovery lists of the entries
whose path ends in `.go`. -/
def discovered (env : Env) (entries : List WalkEntry) : List String :=
  ((entries.filter (fun e => strings.HasSuffix e.path ".go")).map
    (fun e => fileStructs env e.path)).flatten

/-! ## The orchestrator (lines 92-153, 191-195) -/

/-- Go `handleErr(err)`: the message it panics with, if it panics. -/
def handleErr (err : Option String) : Option String :=
  match err with
  | some e => some e
  | none => none

/-- The path `temDirpath` of line 109. -/
def temDirpath (workingDir : String) (now : Int) : String :=
  filepath.Join workingDir ("transpiler_" ++ fmt.Sprintd now)

/-- Lines 129-152 of `TranspileDirectory`: what runs once both deferred
removals are registered. -/
def TranspileDirectory.run (env : Env) (w : World) (p : Params)
    (temDirpath filepath : String) : World × Exit :=
  let p := { p with
    Structs := structsArr w.structs
    InitParams := [("BackupDir", "\".\"")] }
  match handleErr env.executeErr with
  | some msg => (w, Exit.panicked msg)
  | none =>
    let w := { w with fs := os.Write w.fs filepath (Execute TEMPLATE p) }
    let args := ["go", "run", "transpiler.go"]
    let w := w.Println (" ".intercalate args)
    match env.CombinedOutput args temDirpath w.fs with
    | (fs, output, some err) =>
      let w := { w with fs := fs }
      let w := w.Println output
      match handleErr (some err) with
      | some msg => (w, Exit.panicked msg)
      | none => (w.Println output, Exit.returned)
    | (fs, output, none) =>
      let w := { w with fs := fs }
      (w.Println output, Exit.returned)

/-- Lines 119-152 of `TranspileDirectory`: what runs once the removal of the
workspace is registered. The deferred `fp.Close()` and `os.Remove(filepath)`
run when the rest returns or panics. -/
def TranspileDirectory.inWorkspace (env : Env) (w : World) (p : Params)
    (temDirpath : String) : World × Exit :=
  let filepath := filepath.Join temDirpath "transpiler.go"
  match env.createErr with
  | some e => (w, Exit.panicked e)
  | none =>
    let w := { w with fs := os.Create w.fs filepath }
    match TranspileDirectory.run env w p temDirpath filepath with
    | (w, exit) => ({ w with fs := os.Remove w.fs filepath }, exit)

/-- Go `TranspileDirectory(workingDir, packageDir, packagePath, outputFilepath)`.
The deferred `os.RemoveAll(temDirpath)` runs when the rest returns or panics. -/
def TranspileDirectory (env : Env) (w : World)
    (workingDir packageDir packagePath outputFilepath : String) : World × Exit :=
  let p : Params :=
    { ModelsPackage := packagePath, TargetFile := outputFilepath, Interface := true }
  if len p.ModelsPackage == 0 then
    ({ w with stderr := w.stderr ++ ["No package given\n"] }, Exit.osExit 1)
  else
    match popuplateStructs env w packageDir with
    | (w, Exit.returned) =>
      let w := { w with stdout := w.stdout ++
        ["Found " ++ Nat.repr w.structs.length ++ " structs in " ++ p.TargetFile ++ ".\n"] }
      let temDirpath := temDirpath workingDir env.now
      let w := w.Println temDirpath
      match env.mkdirAllErr with
      | some e => (w, Exit.panicked e)
      | none =>
        let w := { w with fs := os.MkdirAll w.fs temDirpath }
        match TranspileDirectory.inWorkspace env w p temDirpath with
        | (w, exit) => ({ w with fs := os.RemoveAll w.fs temDirpath }, exit)
    | (w, exit) => (w, exit)

/-! ## Auxiliary notions used in the statements and proofs -/

/-- What the slot of the visitor still holds for the next struct-type node:
the candidate, when it is non-empty and the next non-nil visit is a struct type. -/
def pending (slot : String) (vs : List (Option Node)) : List String :=
  if slot ≠ "" ∧ nextIsStruct vs = true then [slot] else []

/-- A struct declaration whose name is bound by the visitor: the name is not
empty, the struct-type node directly follows the name in traversal order (no
type parameters, no parentheses), and in the body no identifier is directly
followed by a struct-type node. -/
def StructDecl.wellBound (d : StructDecl) : Prop :=
  d.name ≠ "" ∧ d.typeParams.isNone = true ∧ d.parens = 0
    ∧ identsBeforeStruct (ast.visits (ast.FieldList d.fields)) = []

/-- The number a list of decimal digits stands for, continuing from `init`. -/
def digitsValue (l : List Char) (init : Nat) : Nat :=
  l.foldl (fun a c => a * 10 + (c.toNat - 48)) init

/-- A path element that `filepath.Clean` keeps as it is: it has no separator
and is not empty, `.` or `..`. -/
def plainElement (e : List Char) : Prop :=
  '/' ∉ e ∧ e ≠ [] ∧ e ≠ ['.'] ∧ e ≠ ['.', '.']

/-- The value of `p` when the template is executed (line 141), for the
accumulator `structs`. -/
def generatedParams (packagePath outputFilepath : String) (structs : List String) : Params :=
  { ModelsPackage := packagePath
    TargetFile := outputFilepath
    Interface := true
    Structs := structsArr structs
    InitParams := [("BackupDir", "\".\"")] }

/-- The file system in which the subprocess starts (line 147), from the file
system `fs` before the workspace is created: the workspace directory exists
and holds the generated file with the rendered text. -/
def workspaceFs (fs : List (String × FileKind)) (temDirpath text : String) :
    List (String × FileKind) :=
  os.Write (os.Create (os.MkdirAll fs temDirpath) (filepath.Join temDirpath "transpiler.go"))
    (filepath.Join temDirpath "transpiler.go") text

/-! ## Concrete inputs -/

/-- The declarations `type Order struct { ID int }` and
`type Customer struct { Name string }`. -/
def ordersDecls : List (List StructDecl) :=
  [[{ name := "Order", fields := [ast.Field "ID" (ast.Ident "int")] }],
   [{ name := "Customer", fields := [ast.Field "Name" (ast.Ident "string")] }]]

/-- The syntax tree of a file `package models`, `type Order struct { ID int }`,
`type Customer struct { Name string }`. -/
def ordersFile : Ast :=
  ast.File "models" ordersDecls

/-- The syntax tree of a file `package models`,
`type Order struct { Inner struct { X int } }`: one top-level struct
declaration, with a field of an anonymous struct type. -/
def nestedFile : Ast :=
  ast.File "models"
    [[{ name := "Order",
        fields := [ast.Field "Inner"
          (Ast.mk Node.structType [ast.FieldList [ast.Field "X" (ast.Ident "int")]])] }]]

/-- The syntax tree of a file `package models`,
`type Box[T any] struct { V T }`: one top-level struct declaration, with a
type parameter. -/
def genericFile : Ast :=
  ast.File "models"
    [[{ name := "Box",
        typeParams := some [ast.Field "T" (ast.Ident "any")],
        fields := [ast.Field "V" (ast.Ident "T")] }]]

/-- The syntax tree of a file `package models`,
`type Order (struct { ID int })`: one top-level struct declaration, with the
struct type in parentheses. -/
def parenthesisedFile : Ast :=
  ast.File "models"
    [[{ name := "Order", parens := 1, fields := [ast.Field "ID" (ast.Ident "int")] }]]

/-- A source tree `models` with the file `models/order.go` (the file
`ordersFile`) and a file that is not Go source, read at the Unix second
1700000000, where every system call succeeds and the subprocess fails with
`exit status 1` after printing `boom`. -/
def failingBuild : Env where
  now := 1700000000
  walk := fun _ => [{ path := "models" }, { path := "models/order.go" },
    { path := "models/README.md" }]
  parse := fun _ => Except.ok ordersFile
  CombinedOutput := fun _ _ fs => (fs, "boom", some "exit status 1")

/-- The same source tree and clock reading as `failingBuild`, with a
subprocess that succeeds and prints `OK`. -/
def passingBuild : Env where
  now := 1700000000
  walk := fun _ => [{ path := "models" }, { path := "models/order.go" },
    { path := "models/README.md" }]
  parse := fun _ => Except.ok ordersFile
  CombinedOutput := fun _ _ fs => (fs, "OK\n", none)


/-! ## Lemmas -/

/-! ### The visitor -/

theorem len_eq_zero_iff (s : String) : len s = 0 ↔ s = "" := by
  rcases s with ⟨cs⟩
  cases cs with
  | nil => simp [len, String.utf8ByteSize, String.utf8ByteSize.go]
  | cons c cs =>
    have hc := Char.utf8Size_pos c
    have hne : (String.mk (c :: cs)) ≠ "" := by
      intro h
      have := congrArg String.data h
      simp at this
    simp [len, String.utf8ByteSize, String.utf8ByteSize.go, hne]
    omega

theorem len_pos_iff (s : String) : 0 < len s ↔ s ≠ "" := by
  rw [Nat.pos_iff_ne_zero, Ne, len_eq_zero_iff]

mutual
theorem Walk_eq_foldl (v : AVisitor) : ∀ t : Ast, ast.Walk v t = (ast.visits t).foldl AVisitor.Visit v
  | Ast.mk n children => by
    simp [ast.Walk, ast.visits, List.foldl_append, WalkList_eq_foldl (v.Visit (some n)) children]
theorem WalkList_eq_foldl (v : AVisitor) : ∀ ts : List Ast, ast.WalkList v ts = (ast.visitsList ts).foldl AVisitor.Visit v
  | [] => by simp [ast.WalkList, ast.visitsList]
  | t :: ts => by
    simp [ast.WalkList, ast.visitsList, List.foldl_append, Walk_eq_foldl v t, WalkList_eq_foldl _ ts]
end


theorem foldl_Visit_structs (vs : List (Option Node)) : ∀ v : AVisitor,
    (vs.foldl AVisitor.Visit v).structs
      = v.structs ++ pending v.structNameCandidate vs ++ identsBeforeStruct vs := by
  induction vs with
  | nil => intro v; simp [pending, nextIsStruct, identsBeforeStruct]
  | cons x xs ih =>
    intro v
    rw [List.foldl_cons, ih]
    rcases x with _ | (name | _ | kind)
    · simp [AVisitor.Visit, pending, nextIsStruct, identsBeforeStruct]
    · simp only [AVisitor.Visit, pending, nextIsStruct, identsBeforeStruct]
      by_cases h : name ≠ "" ∧ nextIsStruct xs = true <;> simp [h]
    · by_cases h : v.structNameCandidate = ""
      · have h0 : len "" = 0 := (len_eq_zero_iff _).2 rfl
        simp [AVisitor.Visit, pending, nextIsStruct, identsBeforeStruct, h0, h]
      · have h0 : len v.structNameCandidate > 0 := (len_pos_iff _).2 h
        simp [AVisitor.Visit, pending, nextIsStruct, identsBeforeStruct, h0, h]
    · simp [AVisitor.Visit, pending, nextIsStruct, identsBeforeStruct]

theorem foldl_Visit_length (vs : List (Option Node)) : ∀ v : AVisitor,
    (vs.foldl AVisitor.Visit v).structs.length ≤ v.structs.length + countStructs vs := by
  induction vs with
  | nil => intro v; simp
  | cons x xs ih =>
    intro v
    rw [List.foldl_cons]
    refine le_trans (ih _) ?_
    rcases x with _ | (name | _ | kind)
    · simp [AVisitor.Visit, countStructs, List.count_cons]
    · simp [AVisitor.Visit, countStructs, List.count_cons]
    · simp only [AVisitor.Visit, countStructs, List.count_cons]
      split
      · simp; omega
      · simp
    · simp [AVisitor.Visit, countStructs, List.count_cons]

/-! ### Files of struct declarations -/

theorem nextIsStruct_append (a b : List (Option Node)) (hb : nextIsStruct b = false) :
    nextIsStruct (a ++ b) = nextIsStruct a := by
  induction a with
  | nil => simp [nextIsStruct, hb]
  | cons x xs ih =>
    rcases x with _ | (name | _ | kind) <;> simp [nextIsStruct, ih]

theorem identsBeforeStruct_append (a b : List (Option Node)) (hb : nextIsStruct b = false) :
    identsBeforeStruct (a ++ b) = identsBeforeStruct a ++ identsBeforeStruct b := by
  induction a with
  | nil => simp [identsBeforeStruct]
  | cons x xs ih =>
    rcases x with _ | (name | _ | kind)
    · simp [identsBeforeStruct, ih]
    · by_cases h : name ≠ "" ∧ nextIsStruct xs = true <;>
        simp [identsBeforeStruct, ih, nextIsStruct_append xs b hb, h]
    · simp [identsBeforeStruct, ih]
    · simp [identsBeforeStruct, ih]

theorem visits_TypeSpec (d : StructDecl) (h : d.wellBound) :
    ast.visits (ast.TypeSpec d)
      = [some (Node.other "TypeSpec"), some (Node.ident d.name), none, some Node.structType]
        ++ (ast.visits (ast.FieldList d.fields) ++ [none, none]) := by
  obtain ⟨_, hparams, hparens, _⟩ := h
  have hnone : d.typeParams = none := by
    cases hd : d.typeParams with
    | none => rfl
    | some params => rw [hd] at hparams; exact absurd hparams (by simp)
  simp [ast.TypeSpec, ast.typeParamsOf, hnone, hparens, ast.parenthesised, ast.StructType,
    ast.visits, ast.visitsList, ast.Ident]

theorem identsBeforeStruct_TypeSpec (d : StructDecl) (h : d.wellBound) :
    identsBeforeStruct (ast.visits (ast.TypeSpec d)) = [d.name] := by
  rw [visits_TypeSpec d h]
  obtain ⟨hname, _, _, hbody⟩ := h
  have h2 : identsBeforeStruct (ast.visits (ast.FieldList d.fields) ++ [none, none]) = [] := by
    rw [identsBeforeStruct_append _ _ (by simp [nextIsStruct]), hbody]
    simp [identsBeforeStruct]
  generalize ast.visits (ast.FieldList d.fields) = body at h2
  simp [identsBeforeStruct, nextIsStruct, hname, h2]

theorem nextIsStruct_specs (ds : List StructDecl) :
    nextIsStruct (ast.visitsList (ds.map ast.TypeSpec)) = false := by
  cases ds with
  | nil => simp [ast.visitsList, nextIsStruct]
  | cons d ds => simp [ast.visitsList, ast.visits, ast.TypeSpec, nextIsStruct]

theorem identsBeforeStruct_specs (ds : List StructDecl) (h : ∀ d ∈ ds, d.wellBound) :
    identsBeforeStruct (ast.visitsList (ds.map ast.TypeSpec)) = ds.map StructDecl.name := by
  induction ds with
  | nil => simp [ast.visitsList, identsBeforeStruct]
  | cons d ds ih =>
    simp only [List.map_cons, ast.visitsList]
    rw [identsBeforeStruct_append _ _ (nextIsStruct_specs ds),
      identsBeforeStruct_TypeSpec d (h d (by simp)),
      ih (fun e he => h e (by simp [he]))]
    simp

theorem identsBeforeStruct_GenDecl (ds : List StructDecl) (h : ∀ d ∈ ds, d.wellBound) :
    identsBeforeStruct (ast.visits (ast.GenDecl ds)) = ds.map StructDecl.name := by
  simp only [ast.GenDecl, ast.visits, identsBeforeStruct]
  rw [identsBeforeStruct_append _ _ (by simp [nextIsStruct]), identsBeforeStruct_specs ds h]
  simp [identsBeforeStruct]

theorem nextIsStruct_decls (decls : List (List StructDecl)) :
    nextIsStruct (ast.visitsList (decls.map ast.GenDecl)) = false := by
  cases decls with
  | nil => simp [ast.visitsList, nextIsStruct]
  | cons d ds => simp [ast.visitsList, ast.visits, ast.GenDecl, nextIsStruct]

theorem identsBeforeStruct_decls (decls : List (List StructDecl))
    (h : ∀ d ∈ decls.flatten, d.wellBound) :
    identsBeforeStruct (ast.visitsList (decls.map ast.GenDecl))
      = decls.flatten.map StructDecl.name := by
  induction decls with
  | nil => simp [ast.visitsList, identsBeforeStruct]
  | cons ds decls ih =>
    simp only [List.map_cons, ast.visitsList]
    rw [identsBeforeStruct_append _ _ (nextIsStruct_decls decls),
      identsBeforeStruct_GenDecl ds (fun e he => h e (by simp [he])),
      ih (fun e he => h e (by simp at he ⊢; exact Or.inr he))]
    simp

theorem identsBeforeStruct_File (pkg : String) (decls : List (List StructDecl))
    (h : ∀ d ∈ decls.flatten, d.wellBound) :
    identsBeforeStruct (ast.visits (ast.File pkg decls)) = decls.flatten.map StructDecl.name := by
  have h1 : nextIsStruct (ast.visitsList (decls.map ast.GenDecl) ++ [none]) = false := by
    rw [nextIsStruct_append _ _ (by simp [nextIsStruct])]
    exact nextIsStruct_decls decls
  have h2 : identsBeforeStruct (ast.visitsList (decls.map ast.GenDecl) ++ [none])
      = decls.flatten.map StructDecl.name := by
    rw [identsBeforeStruct_append _ _ (by simp [nextIsStruct]),
      identsBeforeStruct_decls decls h]
    simp [identsBeforeStruct]
  have h3 : ast.visits (ast.File pkg decls)
      = some (Node.other "File") :: some (Node.ident pkg) :: none
          :: (ast.visitsList (decls.map ast.GenDecl) ++ [none]) := by
    simp [ast.File, ast.visits, ast.visitsList, ast.Ident]
  rw [h3]
  simp only [identsBeforeStruct, nextIsStruct, h1, h2]
  simp

/-! ### Trimming -/

theorem splitOn_ne_nil (sep : Char) (l : List Char) : splitOn sep l ≠ [] := by
  cases l with
  | nil => simp [splitOn]
  | cons c cs =>
    by_cases h : c = sep
    · simp [splitOn, h]
    · simp only [splitOn, h, if_false]
      split <;> simp

theorem splitOn_append_sep (sep : Char) (a b : List Char) :
    splitOn sep (a ++ sep :: b) = splitOn sep a ++ splitOn sep b := by
  induction a with
  | nil => simp [splitOn]
  | cons c cs ih =>
    by_cases h : c = sep
    · simp [splitOn, h, ih]
    · simp only [List.cons_append, splitOn, h, if_false]
      rw [show cs.append (sep :: b) = cs ++ sep :: b from rfl, ih]
      have hne := splitOn_ne_nil sep cs
      cases hcs : splitOn sep cs with
      | nil => exact absurd hcs hne
      | cons e es => simp

theorem splitOn_of_not_mem (sep : Char) (l : List Char) (h : sep ∉ l) : splitOn sep l = [l] := by
  induction l with
  | nil => simp [splitOn]
  | cons c cs ih =>
    have hc : c ≠ sep := fun e => h (by simp [e])
    have hcs : sep ∉ cs := fun e => h (by simp [e])
    simp [splitOn, hc, ih hcs]

theorem slashed_append (xs : List (List Char)) (e : List Char) :
    filepath.slashed (xs ++ [e]) = filepath.slashed xs ++ '/' :: e := by
  induction xs with
  | nil => simp [filepath.slashed]
  | cons x xs ih => simp [filepath.slashed, ih]


theorem assemble_append (rooted : Bool) (kept : List (List Char)) :
    ∃ pre : List Char, ∀ e, filepath.assemble rooted (kept ++ [e]) = pre ++ e := by
  cases rooted with
  | true =>
    exact ⟨filepath.slashed kept ++ ['/'], fun e => by simp [filepath.assemble, slashed_append]⟩
  | false =>
    cases kept with
    | nil => exact ⟨[], fun e => by simp [filepath.assemble, filepath.slashed]⟩
    | cons x xs =>
      exact ⟨x ++ filepath.slashed xs ++ ['/'], fun e => by
        simp [filepath.assemble, slashed_append]⟩

theorem cleanStep_plain (rooted : Bool) (kept : List (List Char)) (e : List Char)
    (he : plainElement e) : filepath.cleanStep rooted kept e = e :: kept := by
  obtain ⟨_, h2, h3, h4⟩ := he
  simp [filepath.cleanStep, h2, h3, h4]

theorem Clean_plain (e : List Char) (he : plainElement e) :
    (filepath.Clean ⟨e⟩).data = e := by
  have hr : filepath.isRooted e = false := by
    cases e with
    | nil => simp [filepath.isRooted]
    | cons c cs =>
      have : c ≠ '/' := fun h => he.1 (by simp [h])
      simp [filepath.isRooted, this]
  simp [filepath.Clean, hr, filepath.elements, splitOn_of_not_mem _ _ he.1,
    cleanStep_plain _ _ e he, filepath.assemble, filepath.slashed]

theorem Clean_append_plain (a : List Char) (ha : a ≠ []) :
    ∃ pre : List Char, ∀ e, plainElement e →
      (filepath.Clean ⟨a ++ '/' :: e⟩).data = pre ++ e := by
  obtain ⟨pre, hpre⟩ := assemble_append (filepath.isRooted a)
    ((filepath.elements a).foldl (filepath.cleanStep (filepath.isRooted a)) []).reverse
  refine ⟨pre, ?_⟩
  intro e he
  have hr : filepath.isRooted (a ++ '/' :: e) = filepath.isRooted a := by
    cases a with
    | nil => exact absurd rfl ha
    | cons c cs => simp [filepath.isRooted]
  rw [← hpre e]
  simp [filepath.Clean, hr, filepath.elements, splitOn_append_sep, splitOn_of_not_mem _ _ he.1,
    List.foldl_append, cleanStep_plain _ _ e he]

theorem Join_plain (a : String) :
    ∃ pre : List Char, ∀ e, plainElement e → (filepath.Join a ⟨e⟩).data = pre ++ e := by
  by_cases ha : a = ""
  · refine ⟨[], ?_⟩
    intro e he
    have hne : (String.mk e) ≠ "" := by
      intro h
      exact he.2.1 (congrArg String.data h)
    simp [filepath.Join, ha, hne, Clean_plain e he]
  · have ha2 : a.data ≠ [] := by
      intro h
      apply ha
      rcases a with ⟨cs⟩
      simp at h
      simp [h]
    obtain ⟨pre, hpre⟩ := Clean_append_plain a.data ha2
    refine ⟨pre, ?_⟩
    intro e he
    have : a ++ "/" ++ String.mk e = String.mk (a.data ++ '/' :: e) := by
      apply String.ext
      simp
    simp [filepath.Join, ha, this, hpre e he]

/-! ### Decimal numbers -/

theorem digitChar_toNat (k : Nat) (hk : k < 10) : (Nat.digitChar k).toNat - 48 = k := by
  interval_cases k <;> decide

theorem digitChar_isDigit (k : Nat) (hk : k < 10) : (Nat.digitChar k).isDigit = true := by
  interval_cases k <;> decide

theorem digitsValue_toDigitsCore (fuel : Nat) : ∀ (n : Nat) (ds : List Char), n < fuel →
    digitsValue (Nat.toDigitsCore 10 fuel n ds) 0 = digitsValue ds n := by
  induction fuel with
  | zero => intro n ds h; omega
  | succ fuel ih =>
    intro n ds h
    have hmod : n % 10 < 10 := Nat.mod_lt _ (by decide)
    simp only [Nat.toDigitsCore]
    by_cases h0 : n / 10 = 0
    · have hn : n % 10 = n := by omega
      have hd := digitChar_toNat _ hmod
      rw [hn] at hd
      simp [h0, digitsValue, hn, hd]
    · have hlt : n / 10 < fuel := by omega
      simp only [h0, if_false]
      rw [ih (n / 10) _ hlt]
      simp only [digitsValue, List.foldl_cons, digitChar_toNat _ hmod]
      congr 1
      omega

theorem isDigit_toDigitsCore (fuel : Nat) : ∀ (n : Nat) (ds : List Char),
    (∀ c ∈ ds, c.isDigit = true) → ∀ c ∈ Nat.toDigitsCore 10 fuel n ds, c.isDigit = true := by
  induction fuel with
  | zero => intro n ds h; simpa [Nat.toDigitsCore] using h
  | succ fuel ih =>
    intro n ds h
    have hmod : n % 10 < 10 := Nat.mod_lt _ (by decide)
    have hds : ∀ c ∈ Nat.digitChar (n % 10) :: ds, c.isDigit = true := by
      intro c hc
      rcases List.mem_cons.1 hc with rfl | hc
      · exact digitChar_isDigit _ hmod
      · exact h c hc
    simp only [Nat.toDigitsCore]
    by_cases h0 : n / 10 = 0
    · simpa [h0] using hds
    · simp only [h0, if_false]
      exact ih _ _ hds

theorem repr_data (n : Nat) : (Nat.repr n).data = Nat.toDigitsCore 10 (n + 1) n [] := by
  simp [Nat.repr, Nat.toDigits, List.asString]

theorem repr_injective : Function.Injective Nat.repr := by
  intro a b h
  have h2 := congrArg (fun s => digitsValue s.data 0) h
  simp only [repr_data] at h2
  rw [digitsValue_toDigitsCore _ _ _ (Nat.lt_succ_self a),
    digitsValue_toDigitsCore _ _ _ (Nat.lt_succ_self b)] at h2
  simpa [digitsValue] using h2

theorem repr_isDigit (n : Nat) : ∀ c ∈ (Nat.repr n).data, c.isDigit = true := by
  rw [repr_data]
  exact isDigit_toDigitsCore _ _ _ (by simp)

theorem Sprintd_chars (t : Int) : ∀ c ∈ (fmt.Sprintd t).data, c.isDigit = true ∨ c = '-' := by
  intro c hc
  cases t with
  | ofNat n => exact Or.inl (repr_isDigit n c hc)
  | negSucc n =>
    simp only [fmt.Sprintd, String.data_append, List.mem_append] at hc
    rcases hc with hc | hc
    · right; simpa using hc
    · exact Or.inl (repr_isDigit _ c hc)

theorem Sprintd_injective : Function.Injective fmt.Sprintd := by
  intro a b h
  cases a with
  | ofNat m =>
    cases b with
    | ofNat n => simp only [fmt.Sprintd] at h; rw [repr_injective h]
    | negSucc n =>
      exfalso
      have hmem : '-' ∈ (fmt.Sprintd (Int.negSucc n)).data := by simp [fmt.Sprintd]
      rw [← h] at hmem
      have := repr_isDigit m '-' hmem
      revert this; decide
  | negSucc m =>
    cases b with
    | ofNat n =>
      exfalso
      have hmem : '-' ∈ (fmt.Sprintd (Int.negSucc m)).data := by simp [fmt.Sprintd]
      rw [h] at hmem
      have := repr_isDigit n '-' hmem
      revert this; decide
    | negSucc n =>
      simp only [fmt.Sprintd] at h
      have h2 : Nat.repr (m + 1) = Nat.repr (n + 1) := by
        have := congrArg String.data h
        simp only [String.data_append, List.append_cancel_left_eq] at this
        exact String.ext this
      have := repr_injective h2
      have : m = n := by omega
      rw [this]


theorem workspaceName_plain (t : Int) :
    plainElement ("transpiler_" ++ fmt.Sprintd t).data := by
  have hd : ("transpiler_" ++ fmt.Sprintd t).data
      = 't' :: ("ranspiler_".data ++ (fmt.Sprintd t).data) := by
    simp [String.data_append]
  rw [hd]
  refine ⟨?_, by simp, by simp, by simp⟩
  intro hmem
  rcases List.mem_cons.1 hmem with h | h
  · revert h; decide
  · rcases List.mem_append.1 h with h | h
    · revert h; decide
    · rcases Sprintd_chars t _ h with h | h
      · revert h; decide
      · revert h; decide

/-! ### The scanner and the orchestrator -/

theorem visit_go (env : Env) (w : World) (path : String) (f : Ast)
    (hgo : strings.HasSuffix path ".go" = true) (hparse : env.parse path = Except.ok f) :
    visit env w path none
      = ({ w with structs := w.structs ++ fileStructs env path }, WalkFnResult.nil) := by
  simp [visit, hgo, fileStructs, GetGolangFileStructs, hparse]

theorem visit_other (env : Env) (w : World) (path : String)
    (hgo : strings.HasSuffix path ".go" = false) :
    visit env w path none = (w, WalkFnResult.nil) := by
  simp [visit, hgo]

theorem Walk_visit_ok (env : Env) (entries : List WalkEntry)
    (herr : ∀ e ∈ entries, e.err = none)
    (hparse : ∀ e ∈ entries, strings.HasSuffix e.path ".go" = true →
      ∃ f, env.parse e.path = Except.ok f) :
    ∀ w : World, filepath.Walk (visit env) entries w
      = ({ w with structs := w.structs ++ discovered env entries }, WalkFnResult.nil) := by
  induction entries with
  | nil => intro w; simp [filepath.Walk, discovered]
  | cons e es ih =>
    intro w
    have he := herr e (by simp)
    have ih2 := ih (fun x hx => herr x (by simp [hx])) (fun x hx => hparse x (by simp [hx]))
    cases hgo : strings.HasSuffix e.path ".go" with
    | true =>
      obtain ⟨f, hf⟩ := hparse e (by simp) hgo
      simp only [filepath.Walk, he, visit_go env w e.path f hgo hf, ih2]
      simp [discovered, hgo, List.filter_cons]
    | false =>
      simp only [filepath.Walk, he, visit_other env w e.path hgo, ih2]
      simp [discovered, hgo, List.filter_cons]

theorem popuplateStructs_ok (env : Env) (w : World) (dirpath : String)
    (herr : ∀ e ∈ env.walk dirpath, e.err = none)
    (hparse : ∀ e ∈ env.walk dirpath, strings.HasSuffix e.path ".go" = true →
      ∃ f, env.parse e.path = Except.ok f) :
    popuplateStructs env w dirpath
      = ({ w with structs := w.structs ++ discovered env (env.walk dirpath) }, Exit.returned) := by
  simp [popuplateStructs, Walk_visit_ok env _ herr hparse w]

theorem discovered_nil (env : Env) (entries : List WalkEntry)
    (h : ∀ e ∈ entries, strings.HasSuffix e.path ".go" = false) : discovered env entries = [] := by
  have : entries.filter (fun e => strings.HasSuffix e.path ".go") = [] := by
    simp [List.filter_eq_nil_iff]
    intro e he
    simp [h e he]
  simp [discovered, this]

theorem visit_fs (env : Env) (w : World) (path : String) (err : Option String) :
    (visit env w path err).1.fs = w.fs ∧ (visit env w path err).1.stderr = w.stderr := by
  unfold visit
  cases err with
  | some e => simp [World.Println]
  | none =>
    simp only
    split
    · simp
    · split <;> simp

theorem Walk_visit_fs (env : Env) (entries : List WalkEntry) : ∀ w : World,
    (filepath.Walk (visit env) entries w).1.fs = w.fs
      ∧ (filepath.Walk (visit env) entries w).1.stderr = w.stderr := by
  induction entries with
  | nil => intro w; simp [filepath.Walk]
  | cons e es ih =>
    intro w
    have hv := visit_fs env w e.path e.err
    simp only [filepath.Walk]
    rcases hvis : visit env w e.path e.err with ⟨w1, r⟩
    rw [hvis] at hv
    cases r with
    | nil => simp only; rw [(ih w1).1, (ih w1).2]; exact hv
    | err x => exact hv
    | panic x => exact hv

theorem popuplateStructs_fs (env : Env) (w : World) (dirpath : String) :
    (popuplateStructs env w dirpath).1.fs = w.fs
      ∧ (popuplateStructs env w dirpath).1.stderr = w.stderr := by
  have h := Walk_visit_fs env (env.walk dirpath) w
  unfold popuplateStructs
  rcases hw : filepath.Walk (visit env) (env.walk dirpath) w with ⟨w1, r⟩
  rw [hw] at h
  cases r <;> exact h

theorem popuplateStructs_exit (env : Env) (w : World) (dirpath : String) (code : Nat) :
    (popuplateStructs env w dirpath).2 ≠ Exit.osExit code := by
  unfold popuplateStructs
  rcases filepath.Walk (visit env) (env.walk dirpath) w with ⟨w1, r⟩
  cases r <;> simp

theorem pathExists_RemoveAll (fs : List (String × FileKind)) (path : String) :
    (os.RemoveAll fs path).any (fun e => e.1 == path) = false := by
  simp [os.RemoveAll, List.any_eq_false]
  intro a b hab h1 _ h2
  exact h1 h2

theorem run_exit (env : Env) (w : World) (p : Params) (t f : String) (code : Nat) :
    (TranspileDirectory.run env w p t f).2 ≠ Exit.osExit code := by
  unfold TranspileDirectory.run
  simp only
  cases env.executeErr with
  | some e => simp [handleErr]
  | none =>
    simp only [handleErr]
    rcases env.CombinedOutput _ _ _ with ⟨fs, output, err⟩
    cases err <;> simp

theorem inWorkspace_exit (env : Env) (w : World) (p : Params) (t : String) (code : Nat) :
    (TranspileDirectory.inWorkspace env w p t).2 ≠ Exit.osExit code := by
  unfold TranspileDirectory.inWorkspace
  simp only
  cases env.createErr with
  | some e => simp
  | none =>
    simp only
    exact run_exit env _ p t _ code

theorem TranspileDirectory_empty (env : Env) (w : World)
    (workingDir packageDir outputFilepath : String) :
    TranspileDirectory env w workingDir packageDir "" outputFilepath
        = ({ w with stderr := w.stderr ++ ["No package given\n"] }, Exit.osExit 1) := by
  have h0 : len "" = 0 := by decide
  simp [TranspileDirectory, h0]

/-! ### The generated program -/

/-- C1: for every visitor state and every non-nil node, `Visit` on an
identifier sets the slot to its name and leaves the emitted list unchanged; on
a struct type with a non-empty slot it appends the slot to the emitted list and
empties the slot, and with an empty slot it changes nothing; on a node of any
other kind it empties the slot and leaves the emitted list unchanged. -/
theorem Visit_by_node_kind (v : AVisitor) :
    (∀ name : String, v.Visit (some (Node.ident name))
        = { structNameCandidate := name, structs := v.structs })
    ∧ v.Visit (some Node.structType)
        = (if v.structNameCandidate = "" then v
           else { structNameCandidate := "", structs := v.structs ++ [v.structNameCandidate] })
    ∧ (∀ kind : String, v.Visit (some (Node.other kind))
        = { structNameCandidate := "", structs := v.structs }) := by
  refine ⟨fun name => rfl, ?_, fun kind => rfl⟩
  by_cases h : v.structNameCandidate = ""
  · have h0 : len "" = 0 := (len_eq_zero_iff _).2 rfl
    simp [AVisitor.Visit, h, h0]
  · have h0 : len v.structNameCandidate > 0 := (len_pos_iff _).2 h
    simp [AVisitor.Visit, h, h0]

/-- C2, as stated, fails, in three ways. Each of these files consists of one
top-level struct declaration:
`type Order struct { Inner struct { X int } }` yields two names, the declared
name and the field name; `type Box[T any] struct { V T }` yields the one name
`any`, not the declared name; `type Order (struct { ID int })` yields no name. -/
theorem struct_declarations_miscounted :
    GetGolangFileStructs (fun _ => Except.ok nestedFile) "order.go"
        = Except.ok ["Order", "Inner"]
    ∧ GetGolangFileStructs (fun _ => Except.ok nestedFile) "order.go"
        ≠ Except.ok ["Order"]
    ∧ GetGolangFileStructs (fun _ => Except.ok genericFile) "box.go"
        = Except.ok ["any"]
    ∧ GetGolangFileStructs (fun _ => Except.ok genericFile) "box.go"
        ≠ Except.ok ["Box"]
    ∧ GetGolangFileStructs (fun _ => Except.ok parenthesisedFile) "order.go"
        = Except.ok []
    ∧ GetGolangFileStructs (fun _ => Except.ok parenthesisedFile) "order.go"
        ≠ Except.ok ["Order"] := by
  have h1 : GetGolangFileStructs (fun _ => Except.ok nestedFile) "order.go"
      = Except.ok ["Order", "Inner"] := rfl
  have h2 : GetGolangFileStructs (fun _ => Except.ok genericFile) "box.go"
      = Except.ok ["any"] := rfl
  have h3 : GetGolangFileStructs (fun _ => Except.ok parenthesisedFile) "order.go"
      = Except.ok [] := rfl
  refine ⟨h1, ?_, h2, ?_, h3, ?_⟩
  · rw [h1]
    intro hne
    injection hne with hne
    revert hne
    decide
  · rw [h2]
    intro hne
    injection hne with hne
    revert hne
    decide
  · rw [h3]
    intro hne
    injection hne with hne
    revert hne
    decide

/-- C2, amended: for a parsed file that consists of N top-level struct type
declarations, written with or without type parameters and parentheses, if
every declaration has a non-empty name whose identifier is directly followed
in traversal order by the struct-type node (the declaration has no type
parameters and its struct type is not in parentheses), and in no struct body
an identifier is directly followed in traversal order by a struct-type node,
then `GetGolangFileStructs` returns exactly the N declared names in
declaration order. -/
theorem GetGolangFileStructs_top_level (parse : String → Except String Ast)
    (filename pkg : String) (decls : List (List StructDecl))
    (hparse : parse filename = Except.ok (ast.File pkg decls))
    (hname : ∀ d ∈ decls.flatten, d.name ≠ "")
    (hdirect : ∀ d ∈ decls.flatten, d.typeParams.isNone = true ∧ d.parens = 0)
    (hbody : ∀ d ∈ decls.flatten,
      identsBeforeStruct (ast.visits (ast.FieldList d.fields)) = []) :
    GetGolangFileStructs parse filename = Except.ok (decls.flatten.map StructDecl.name)
    ∧ (decls.flatten.map StructDecl.name).length = decls.flatten.length := by
  refine ⟨?_, List.length_map _ _⟩
  have hbound : ∀ d ∈ decls.flatten, d.wellBound := fun d hd =>
    ⟨hname d hd, (hdirect d hd).1, (hdirect d hd).2, hbody d hd⟩
  simp only [GetGolangFileStructs, hparse]
  rw [Walk_eq_foldl, foldl_Visit_structs, identsBeforeStruct_File pkg decls hbound]
  simp [pending]

/-- The file that declares `Order` and then `Customer` yields these two names
in this order. -/
theorem GetGolangFileStructs_top_level_witness :
    GetGolangFileStructs (fun _ => Except.ok ordersFile) "order.go"
        = Except.ok (ordersDecls.flatten.map StructDecl.name)
    ∧ (ordersDecls.flatten.map StructDecl.name).length = ordersDecls.flatten.length :=
  GetGolangFileStructs_top_level (fun _ => Except.ok ordersFile) "order.go" "models"
    ordersDecls rfl (by decide) (by decide) (by decide)

/-- C3, as stated, fails: on a tree with one file that declares `Order` and
`Customer`, the first scan leaves two names in the accumulator and the second
scan of the unchanged tree leaves four. -/
theorem second_scan_repeats_names :
    (popuplateStructs passingBuild (init {}) "models").1.structs = ["Order", "Customer"]
    ∧ (popuplateStructs passingBuild
        (popuplateStructs passingBuild (init {}) "models").1 "models").1.structs
        = ["Order", "Customer", "Order", "Customer"]
    ∧ (popuplateStructs passingBuild
        (popuplateStructs passingBuild (init {}) "models").1 "models").1.structs
        ≠ (popuplateStructs passingBuild (init {}) "models").1.structs := by
  decide

/-- C3, amended: on a tree whose walk meets no error and whose `.go` entries
all parse, every scan returns and appends the same ordered sequence of names to
the accumulator, which is never reset: after the second scan of the unchanged
tree the accumulator holds what it held after the first scan followed by the
names of the tree once more. -/
theorem popuplateStructs_twice (env : Env) (w : World) (dirpath : String)
    (herr : ∀ e ∈ env.walk dirpath, e.err = none)
    (hparse : ∀ e ∈ env.walk dirpath, strings.HasSuffix e.path ".go" = true →
      ∃ f, env.parse e.path = Except.ok f) :
    (popuplateStructs env w dirpath).2 = Exit.returned
    ∧ (popuplateStructs env w dirpath).1.structs
        = w.structs ++ discovered env (env.walk dirpath)
    ∧ (popuplateStructs env (popuplateStructs env w dirpath).1 dirpath).2 = Exit.returned
    ∧ (popuplateStructs env (popuplateStructs env w dirpath).1 dirpath).1.structs
        = (popuplateStructs env w dirpath).1.structs ++ discovered env (env.walk dirpath) := by
  rw [popuplateStructs_ok env w dirpath herr hparse]
  rw [popuplateStructs_ok env _ dirpath herr hparse]
  simp

/-- Two scans of the tree of `passingBuild`, starting from the empty accumulator. -/
theorem popuplateStructs_twice_witness :
    (popuplateStructs passingBuild
        (popuplateStructs passingBuild (init {}) "models").1 "models").1.structs
      = (popuplateStructs passingBuild (init {}) "models").1.structs
          ++ discovered passingBuild (passingBuild.walk "models") :=
  (popuplateStructs_twice passingBuild (init {}) "models" (by decide)
    (fun _ _ _ => ⟨ordersFile, rfl⟩)).2.2.2

/-- C4: after a directory walk that meets no error and whose `.go` entries all
parse, the scan returns with the accumulator it started from followed by the
concatenation, in walk order, of the discovery lists of exactly the entries
whose path ends in `.go`, duplicates kept; with no such entry and an empty
accumulator the result is empty. -/
theorem popuplateStructs_concatenates (env : Env) (w : World) (dirpath : String)
    (herr : ∀ e ∈ env.walk dirpath, e.err = none)
    (hparse : ∀ e ∈ env.walk dirpath, strings.HasSuffix e.path ".go" = true →
      ∃ f, env.parse e.path = Except.ok f) :
    popuplateStructs env w dirpath
        = ({ w with structs := w.structs ++ discovered env (env.walk dirpath) }, Exit.returned)
    ∧ ((∀ e ∈ env.walk dirpath, strings.HasSuffix e.path ".go" = false) →
        (popuplateStructs env (init w) dirpath).1.structs = []) := by
  constructor
  · exact popuplateStructs_ok env w dirpath herr hparse
  · intro hnone
    rw [popuplateStructs_ok env _ dirpath herr hparse]
    simp [init, discovered_nil env _ hnone]

/-- The scan of the tree of `passingBuild` from the empty accumulator. -/
theorem popuplateStructs_concatenates_witness :
    (popuplateStructs passingBuild (init {}) "models").1.structs = ["Order", "Customer"] := by
  rw [(popuplateStructs_concatenates passingBuild (init {}) "models" (by decide)
    (fun _ _ _ => ⟨ordersFile, rfl⟩)).1]
  decide

/-- C5: whatever fails during an invocation of `TranspileDirectory` (an empty
package identifier, the directory walk, a file that does not parse, the
creation of the workspace or of the generated file, the rendering of the
template, the subprocess) or if nothing fails, the workspace directory computed
for the invocation does not exist when the call ends, provided it did not exist
before. -/
theorem TranspileDirectory_removes_workspace (env : Env) (w : World)
    (workingDir packageDir packagePath outputFilepath : String)
    (h : w.pathExists (temDirpath workingDir env.now) = false) :
    (TranspileDirectory env w workingDir packageDir packagePath outputFilepath).1.pathExists
      (temDirpath workingDir env.now) = false := by
  unfold TranspileDirectory
  simp only
  split
  · exact h
  · have hfs := (popuplateStructs_fs env w packageDir).1
    rcases hp : popuplateStructs env w packageDir with ⟨w1, exit⟩
    rw [hp] at hfs
    have h1 : w1.pathExists (temDirpath workingDir env.now) = false := by
      simp only [World.pathExists] at h ⊢
      rw [show w1.fs = w.fs from hfs]
      exact h
    cases exit with
    | returned =>
      simp only
      cases env.mkdirAllErr with
      | some e => simpa [World.pathExists, World.Println] using h1
      | none => simp [World.pathExists, pathExists_RemoveAll]
    | osExit c => exact h1
    | panicked m => exact h1

/-- An invocation whose subprocess fails, on an empty file system. -/
theorem TranspileDirectory_removes_workspace_witness :
    (TranspileDirectory failingBuild {} "/tmp" "models" "example.com/models"
      "out.ts").1.pathExists (temDirpath "/tmp" failingBuild.now) = false :=
  TranspileDirectory_removes_workspace failingBuild {} "/tmp" "models" "example.com/models"
    "out.ts" (by decide)

/-- C6: with an empty package identifier `TranspileDirectory` writes
`No package given` to standard error and exits with status 1, leaving the
accumulator, the file system and standard output as they were; and it exits
with status 1 only when the package identifier is empty. -/
theorem TranspileDirectory_empty_package (env : Env) (w : World)
    (workingDir packageDir outputFilepath : String) :
    TranspileDirectory env w workingDir packageDir "" outputFilepath
        = ({ w with stderr := w.stderr ++ ["No package given\n"] }, Exit.osExit 1)
    ∧ ∀ packagePath : String,
        ((TranspileDirectory env w workingDir packageDir packagePath outputFilepath).2
            = Exit.osExit 1 ↔ packagePath = "") := by
  refine ⟨TranspileDirectory_empty env w workingDir packageDir outputFilepath, ?_⟩
  intro packagePath
  constructor
  · intro hexit
    by_contra hne
    have hlen : ¬ (len packagePath = 0) := fun h0 => hne ((len_eq_zero_iff _).1 h0)
    revert hexit
    unfold TranspileDirectory
    simp only [beq_iff_eq, hlen, if_false]
    have hp := popuplateStructs_exit env w packageDir 1
    revert hp
    rcases popuplateStructs env w packageDir with ⟨w1, exit⟩
    intro hp
    cases exit with
    | returned =>
      simp only
      cases env.mkdirAllErr with
      | some e => simp
      | none => exact inWorkspace_exit env _ _ _ 1
    | osExit c => exact hp
    | panicked m => simp
  · intro h
    rw [h, TranspileDirectory_empty]

/-- C8, as stated, fails: when the subprocess prints `boom` and fails with
`exit status 1`, the error that `TranspileDirectory` raises is the text
`exit status 1`, which does not contain `boom`; the captured output is the
last thing written to standard output. -/
theorem build_error_lacks_output :
    (TranspileDirectory failingBuild {} "/tmp" "models" "example.com/models" "out.ts").2
        = Exit.panicked "exit status 1"
    ∧ ¬ ("boom".data <:+: "exit status 1".data)
    ∧ (TranspileDirectory failingBuild {} "/tmp" "models" "example.com/models"
        "out.ts").1.stdout
        = ["Found 2 structs in out.ts.\n", "/tmp/transpiler_1700000000\n",
           "go run transpiler.go\n", "boom\n"] := by
  decide

/-- C8, amended: in every invocation of `TranspileDirectory` that reaches the
subprocess and in which the subprocess reports failure, the captured combined
output is written to standard output, after the trace lines, and the call then
panics with the text of the subprocess error, which is the whole of the build
error. -/
theorem subprocess_failure_reported (env : Env) (w w1 : World)
    (workingDir packageDir packagePath outputFilepath : String)
    (fs : List (String × FileKind)) (output err : String)
    (hpkg : packagePath ≠ "")
    (hscan : popuplateStructs env w packageDir = (w1, Exit.returned))
    (hmkdir : env.mkdirAllErr = none) (hcreate : env.createErr = none)
    (hexec : env.executeErr = none)
    (hcmd : env.CombinedOutput ["go", "run", "transpiler.go"] (temDirpath workingDir env.now)
        (workspaceFs w1.fs (temDirpath workingDir env.now)
          (Execute TEMPLATE (generatedParams packagePath outputFilepath w1.structs)))
        = (fs, output, some err)) :
    (TranspileDirectory env w workingDir packageDir packagePath outputFilepath).2
        = Exit.panicked err
    ∧ (TranspileDirectory env w workingDir packageDir packagePath outputFilepath).1.stdout
        = w1.stdout ++
          ["Found " ++ Nat.repr w1.structs.length ++ " structs in " ++ outputFilepath ++ ".\n",
           temDirpath workingDir env.now ++ "\n", "go run transpiler.go\n", output ++ "\n"] := by
  have hlen : ¬ (len packagePath = 0) := fun h0 => hpkg ((len_eq_zero_iff _).1 h0)
  simp only [workspaceFs, generatedParams] at hcmd
  have hargs : (" ".intercalate ["go", "run", "transpiler.go"]) = "go run transpiler.go" := by
    decide
  simp [TranspileDirectory, hlen, hscan, hmkdir, TranspileDirectory.inWorkspace, hcreate,
    TranspileDirectory.run, hexec, handleErr, World.Println, hcmd, hargs]

/-- The invocation of `failingBuild`, whose subprocess prints `boom` and fails
with `exit status 1`. -/
theorem subprocess_failure_reported_witness :
    (TranspileDirectory failingBuild {} "/tmp" "models" "example.com/models" "out.ts").2
        = Exit.panicked "exit status 1" :=
  (subprocess_failure_reported failingBuild {} { structs := ["Order", "Customer"] }
    "/tmp" "models" "example.com/models" "out.ts" _ "boom" "exit status 1"
    (by decide) rfl rfl rfl rfl rfl).1

/-- C9, as stated, fails: two invocations with the same working directory that
read the clock in the same second compute the same workspace directory name. -/
theorem same_second_same_workspace :
    failingBuild.now = passingBuild.now
    ∧ temDirpath "/tmp" failingBuild.now = "/tmp/transpiler_1700000000"
    ∧ temDirpath "/tmp" passingBuild.now = "/tmp/transpiler_1700000000" := by
  decide

/-- C9, amended: the workspace directory name is derived from the working
directory and the clock reading in whole seconds, and two invocations with the
same working directory compute different names exactly when their clock
readings differ. -/
theorem temDirpath_eq_iff (workingDir : String) (first second : Int) :
    temDirpath workingDir first = temDirpath workingDir second ↔ first = second := by
  constructor
  · intro h
    obtain ⟨pre, hpre⟩ := Join_plain workingDir
    have h1 := hpre _ (workspaceName_plain first)
    have h2 := hpre _ (workspaceName_plain second)
    have h3 : (temDirpath workingDir first).data = (temDirpath workingDir second).data := by
      rw [h]
    simp only [temDirpath] at h3
    rw [h1, h2] at h3
    have h4 := List.append_cancel_left h3
    simp only [String.data_append, List.append_cancel_left_eq] at h4
    exact Sprintd_injective (String.ext h4)
  · intro h
    rw [h]

/-- C10: for every sequence of visits, nil visits included, applied to a fresh
visitor, the emitted list is, in visit order, the names of the identifier nodes
with a non-empty name whose next non-nil visited node is a struct-type node;
the same holds for the walk of a syntax tree; there are at most as many names
as struct-type nodes; two struct-type nodes after one identifier yield one
name; and a field name before an anonymous struct type is emitted. -/
theorem emitted_names (vs : List (Option Node)) :
    (vs.foldl AVisitor.Visit {}).structs = identsBeforeStruct vs
    ∧ (vs.foldl AVisitor.Visit {}).structs.length ≤ countStructs vs
    ∧ (∀ f : Ast, (ast.Walk {} f).structs = identsBeforeStruct (ast.visits f))
    ∧ ([some (Node.ident "A"), none, some Node.structType, none,
          some Node.structType].foldl AVisitor.Visit {}).structs = ["A"]
    ∧ (ast.Walk {} nestedFile).structs = ["Order", "Inner"] := by
  refine ⟨?_, ?_, ?_, by decide, by decide⟩
  · rw [foldl_Visit_structs]
    simp [pending]
  · have h := foldl_Visit_length vs {}
    simpa using h
  · intro f
    rw [Walk_eq_foldl, foldl_Visit_structs]
    simp [pending]

end typescriptify
